import Mathlib

/-!
Verification of the css-colors library (src/lib.rs) against its
natural-language specification.

The library's value types are `Ratio` (an 8-bit fraction n/255) and `Angle`
(a degree value normalized into [0,360)), defined in the crate's `ratio` and
`angle` modules, plus the four color models RGB, RGBA, HSL, HSLA defined in
lib.rs.  The `ratio`/`angle` module sources are not part of the provided
sources, so those two types are modelled from the specification (sections 4.1
BoundedFraction and 4.2 CircularAngle); everything in lib.rs is embedded from
the source.

Floating point (`f32`) computations of lib.rs are embedded as exact rational
arithmetic.  Rationals are represented by the executable fraction type `Q`
(numerator/positive denominator, not reduced), with `Q.toRat : Q → ℚ` the
semantics map; `f32::round` (round half away from zero) is `qRound`.  All
decisions the embedded code makes on these rationals (comparisons of
integer-degree fractions against 0, 1/6, 1/2, 2/3, and the equality test of
`w * a` against -1.0 for grid-valued `w` and `a`) coincide with their f32
counterparts at the inputs where the claims below evaluate them, so the
rational model is faithful there.
-/

/-- An exact rational: integer numerator over a positive natural
denominator, kept unreduced so that every operation evaluates by plain
integer arithmetic. -/
structure Q where
  num : ℤ
  den : ℕ
  pos : 0 < den

/-- The rational number a `Q` denotes. -/
def Q.toRat (q : Q) : ℚ := (q.num : ℚ) / (q.den : ℚ)

/-- Embed an integer. -/
def Q.ofInt (n : ℤ) : Q := ⟨n, 1, Nat.one_pos⟩

def Q.add (a b : Q) : Q :=
  ⟨a.num * (b.den : ℤ) + b.num * (a.den : ℤ), a.den * b.den, Nat.mul_pos a.pos b.pos⟩

def Q.sub (a b : Q) : Q :=
  ⟨a.num * (b.den : ℤ) - b.num * (a.den : ℤ), a.den * b.den, Nat.mul_pos a.pos b.pos⟩

def Q.mul (a b : Q) : Q :=
  ⟨a.num * b.num, a.den * b.den, Nat.mul_pos a.pos b.pos⟩

/-- Exact division.  Division by zero (which the embedded code never
performs on reached branches) returns 0, matching the `ℚ` convention so
that `toRat` commutes with division unconditionally. -/
def Q.div (a b : Q) : Q :=
  if h : 0 < b.num then
    ⟨a.num * (b.den : ℤ), a.den * b.num.toNat, Nat.mul_pos a.pos (by omega)⟩
  else if h' : b.num < 0 then
    ⟨-(a.num * (b.den : ℤ)), a.den * (-b.num).toNat, Nat.mul_pos a.pos (by omega)⟩
  else
    Q.ofInt 0

/-- Numeric equality of fractions (cross multiplication). -/
def Q.Eq (a b : Q) : Prop := a.num * (b.den : ℤ) = b.num * (a.den : ℤ)

/-- Numeric strict order of fractions (cross multiplication; denominators
are positive). -/
def Q.Lt (a b : Q) : Prop := a.num * (b.den : ℤ) < b.num * (a.den : ℤ)

/-- Numeric non-strict order of fractions. -/
def Q.Le (a b : Q) : Prop := a.num * (b.den : ℤ) ≤ b.num * (a.den : ℤ)

instance (a b : Q) : Decidable (a.Eq b) := Int.decEq _ _

instance (a b : Q) : Decidable (a.Lt b) := Int.decLt _ _

instance (a b : Q) : Decidable (a.Le b) := Int.decLe _ _

/-- Round half away from zero, the behaviour of Rust's `f32::round`,
computed on the fraction representation. -/
def qRound (q : Q) : ℤ :=
  if 0 ≤ q.num then ((2 * q.num.toNat + q.den) / (2 * q.den) : ℕ)
  else -(((2 * (-q.num).toNat + q.den) / (2 * q.den) : ℕ) : ℤ)

/-- Modelled from the spec: the crate's `Ratio` type (spec §4.1
"BoundedFraction", module `ratio` missing from the sources): an 8-bit
unsigned numerator `value` representing `value/255`. -/
structure Frac where
  value : ℕ
deriving DecidableEq, Repr

/-- Modelled from the spec: `Ratio::from_u8` is the identity on the stored
byte. -/
def Frac.from_u8 (n : ℕ) : Frac := ⟨n⟩

/-- Modelled from the spec: `Ratio::as_u8` returns the stored byte. -/
def Frac.as_u8 (x : Frac) : ℕ := x.value

/-- Modelled from the spec: `Ratio::from_percentage p` returns
`round(p * 255 / 100)` (round half away from zero; the argument is
non-negative, so this is the floor of `p*255/100 + 1/2`). -/
def Frac.from_percentage (p : ℕ) : Frac := ⟨(510 * p + 100) / 200⟩

/-- Modelled from the spec: `Ratio::as_percentage` returns
`round(value * 100 / 255)`. -/
def Frac.as_percentage (x : Frac) : ℕ := (200 * x.value + 255) / 510

/-- Modelled from the spec: `Ratio::as_f32` returns `value / 255.0`,
embedded as the exact fraction. -/
def Frac.as_f32 (x : Frac) : Q := ⟨x.value, 255, by omega⟩

/-- Modelled from the spec: `Ratio::from_f32 q` scales by 255, rounds,
saturates into [0,255] and stores the byte. -/
def Frac.from_f32 (q : Q) : Frac :=
  ⟨(min 255 (max 0 (qRound (q.mul (Q.ofInt 255))))).toNat⟩

/-- Modelled from the spec: `Ratio` addition saturates at 255. -/
def Frac.add (x y : Frac) : Frac := ⟨min 255 (x.value + y.value)⟩

/-- Modelled from the spec: `Ratio` subtraction saturates at 0
(truncated natural subtraction). -/
def Frac.sub (x y : Frac) : Frac := ⟨x.value - y.value⟩

/-- Modelled from the spec: `Ratio` multiplication is performed on the
floating representations of both operands and re-quantized. -/
def Frac.mul (x y : Frac) : Frac := Frac.from_f32 (x.as_f32.mul y.as_f32)

/-- Modelled from the spec: the crate's `Angle` type (spec §4.2
"CircularAngle", module `angle` missing from the sources): a degree value
normalized into [0,360). -/
structure Angle where
  degrees : ℕ
deriving DecidableEq, Repr

/-- Modelled from the spec: `Angle::new` normalizes via `degrees % 360`. -/
def Angle.new (d : ℕ) : Angle := ⟨d % 360⟩

/-- Modelled from the spec: `Angle` addition sums and re-normalizes. -/
def Angle.add (x y : Angle) : Angle := ⟨(x.degrees + y.degrees) % 360⟩

/-- Modelled from the spec: `Angle` subtraction is
`(self + 360 - other) % 360`. -/
def Angle.sub (x y : Angle) : Angle := ⟨(x.degrees + 360 - y.degrees) % 360⟩

/-- lib.rs `struct RGB`: red, green, blue channels as `Ratio`s. -/
structure RGB where
  r : Frac
  g : Frac
  b : Frac
deriving DecidableEq, Repr

/-- lib.rs `struct RGBA`: RGB plus an alpha channel. -/
structure RGBA where
  r : Frac
  g : Frac
  b : Frac
  a : Frac
deriving DecidableEq, Repr

/-- lib.rs `struct HSL`: hue as `Angle`, saturation and luminosity as
`Ratio`s. -/
structure HSL where
  h : Angle
  s : Frac
  l : Frac
deriving DecidableEq, Repr

/-- lib.rs `struct HSLA`: HSL plus an alpha channel. -/
structure HSLA where
  h : Angle
  s : Frac
  l : Frac
  a : Frac
deriving DecidableEq, Repr

/-- lib.rs `RGB::new`. -/
def RGB.new (r g b : ℕ) : RGB :=
  ⟨Frac.from_u8 r, Frac.from_u8 g, Frac.from_u8 b⟩

/-- lib.rs `RGBA::new`. -/
def RGBA.new (r g b a : ℕ) : RGBA :=
  ⟨Frac.from_u8 r, Frac.from_u8 g, Frac.from_u8 b, Frac.from_u8 a⟩

/-- lib.rs `HSL::new`. -/
def HSL.new (h : ℕ) (s l : ℕ) : HSL :=
  ⟨Angle.new h, Frac.from_percentage s, Frac.from_percentage l⟩

/-- lib.rs `HSLA::new`. -/
def HSLA.new (h : ℕ) (s l a : ℕ) : HSLA :=
  ⟨Angle.new h, Frac.from_percentage s, Frac.from_percentage l, Frac.from_u8 a⟩

/-- lib.rs free function `to_rgb_value(val, temp_1, temp_2)`: the four-region
piecewise hue-to-channel mapping (f32 arithmetic embedded exactly; the
region tests compare `val/360` for an integer `val` against 2/3, 1/2, 1/6,
on which f32 and exact comparison agree). -/
def to_rgb_value (val : ℕ) (temp_1 temp_2 : Q) : Q :=
  let value : Q := (Q.ofInt val).div (Q.ofInt 360)
  if (⟨2, 3, by omega⟩ : Q).Lt value then
    temp_2
  else if (⟨1, 2, by omega⟩ : Q).Lt value then
    temp_2.add (((temp_1.sub temp_2).mul ((⟨2, 3, by omega⟩ : Q).sub value)).mul (Q.ofInt 6))
  else if (⟨1, 6, by omega⟩ : Q).Lt value then
    temp_1
  else
    temp_2.add (((temp_1.sub temp_2).mul value).mul (Q.ofInt 6))

/-- lib.rs `RGB::to_hsl`: achromatic shortcut when r = g = b, otherwise the
max/min-based luminosity, saturation and hue computation (f32 embedded
exactly; `hue.round() as u16` is `qRound`, non-negative here). -/
def RGB.to_hsl (c : RGB) : HSL :=
  if c.r = c.g ∧ c.g = c.b then
    ⟨Angle.new 0, Frac.from_percentage 0, c.r⟩
  else
    let r := c.r.as_f32
    let g := c.g.as_f32
    let b := c.b.as_f32
    let max := if g.Lt r ∧ b.Lt r then r else if b.Lt g then g else b
    let min := if r.Lt g ∧ r.Lt b then r else if g.Lt b then g else b
    let luminosity := (max.add min).div (Q.ofInt 2)
    let saturation :=
      if max.Eq min then Q.ofInt 0
      else if luminosity.Lt ⟨1, 2, by omega⟩ then (max.sub min).div (max.add min)
      else (max.sub min).div ((Q.ofInt 2).sub (max.add min))
    let hue0 :=
      if max.Eq r then (g.sub b).div (max.sub min)
      else if max.Eq g then (Q.ofInt 2).add ((b.sub r).div (max.sub min))
      else (Q.ofInt 4).add ((r.sub g).div (max.sub min))
    let hue1 := hue0.mul (Q.ofInt 60)
    let hue := if hue1.Le (Q.ofInt 0) then hue1.add (Q.ofInt 360) else hue1
    ⟨Angle.new (qRound hue).toNat, Frac.from_f32 saturation, Frac.from_f32 luminosity⟩

/-- lib.rs `HSL::to_rgb`: achromatic shortcut when saturation is 0, otherwise
the temp_1/temp_2 piecewise reconstruction through `to_rgb_value` applied to
the hue rotated by +120°, 0°, -120°. -/
def HSL.to_rgb (c : HSL) : RGB :=
  let s := c.s.as_f32
  let l := c.l.as_f32
  if s.Eq (Q.ofInt 0) then
    ⟨c.l, c.l, c.l⟩
  else
    let temp_1 :=
      if l.Lt ⟨1, 2, by omega⟩ then l.mul ((Q.ofInt 1).add s)
      else (l.add s).sub (l.mul s)
    let temp_2 := ((Q.ofInt 2).mul l).sub temp_1
    let rotation := Angle.new 120
    let temporary_r := (c.h.add rotation).degrees
    let temporary_g := c.h.degrees
    let temporary_b := (c.h.sub rotation).degrees
    ⟨Frac.from_f32 (to_rgb_value temporary_r temp_1 temp_2),
     Frac.from_f32 (to_rgb_value temporary_g temp_1 temp_2),
     Frac.from_f32 (to_rgb_value temporary_b temp_1 temp_2)⟩

/-- lib.rs `RGB::to_rgb`: identity. -/
def RGB.to_rgb (c : RGB) : RGB := c

/-- lib.rs `RGB::to_rgba`: attach alpha 255. -/
def RGB.to_rgba (c : RGB) : RGBA :=
  RGBA.new c.r.as_u8 c.g.as_u8 c.b.as_u8 255

/-- lib.rs `RGB::to_hsla`: convert to HSL, then rebuild as HSLA with
alpha 255. -/
def RGB.to_hsla (c : RGB) : HSLA :=
  let hsl := c.to_hsl
  HSLA.new hsl.h.degrees hsl.s.as_percentage hsl.l.as_percentage 255

/-- lib.rs `RGB::fadein`: no alpha channel, returns self. -/
def RGB.fadein (c : RGB) (_amount : ℕ) : RGB := c

/-- lib.rs `RGB::fadeout`: no alpha channel, returns self. -/
def RGB.fadeout (c : RGB) (_amount : ℕ) : RGB := c

/-- lib.rs `RGBA::to_rgb`: drop alpha. -/
def RGBA.to_rgb (c : RGBA) : RGB :=
  RGB.new c.r.as_u8 c.g.as_u8 c.b.as_u8

/-- lib.rs `RGBA::to_rgba`: identity. -/
def RGBA.to_rgba (c : RGBA) : RGBA := c

/-- lib.rs `RGBA::to_hsl`: through `to_rgb`. -/
def RGBA.to_hsl (c : RGBA) : HSL := c.to_rgb.to_hsl

/-- lib.rs `HSL::to_hsl`: identity. -/
def HSL.to_hsl (c : HSL) : HSL := c

/-- lib.rs `HSL::to_rgba`: through `to_rgb`, alpha 255. -/
def HSL.to_rgba (c : HSL) : RGBA :=
  let rgb := c.to_rgb
  RGBA.new rgb.r.as_u8 rgb.g.as_u8 rgb.b.as_u8 255

/-- lib.rs `HSL::to_hsla`: rebuild as HSLA with alpha 255. -/
def HSL.to_hsla (c : HSL) : HSLA :=
  HSLA.new c.h.degrees c.s.as_percentage c.l.as_percentage 255

/-- lib.rs `HSL::saturate`: saturating add on the saturation channel. -/
def HSL.saturate (c : HSL) (amount : ℕ) : HSL :=
  ⟨c.h, c.s.add (Frac.from_percentage amount), c.l⟩

/-- lib.rs `HSL::desaturate`: saturating subtract on the saturation
channel. -/
def HSL.desaturate (c : HSL) (amount : ℕ) : HSL :=
  ⟨c.h, c.s.sub (Frac.from_percentage amount), c.l⟩

/-- lib.rs `HSL::fadein`: no alpha channel, returns self. -/
def HSL.fadein (c : HSL) (_amount : ℕ) : HSL := c

/-- lib.rs `HSL::fadeout`: no alpha channel, returns self. -/
def HSL.fadeout (c : HSL) (_amount : ℕ) : HSL := c

/-- lib.rs `HSL::greyscale`: zero the saturation, keep hue and
luminosity. -/
def HSL.greyscale (c : HSL) : HSL :=
  ⟨c.h, Frac.from_percentage 0, c.l⟩

/-- On `i16 → u16` casts Rust reinterprets modulo 2^16. -/
def u16_of_int (n : ℤ) : ℕ := (n % 65536).toNat

/-- lib.rs `HSL::spin`: `assert!(amount < 360, "Invalid spin amount")`
(embedded as `none` when the assertion fails), then rotate the hue by
`amount` degrees, subtracting the magnitude when `amount` is negative, and
convert the result to RGB.  The `(amount * -1) as u16` cast is
`u16_of_int` (release-mode wrapping semantics). -/
def HSL.spin (c : HSL) (amount : ℤ) : Option RGB :=
  if amount < 360 then
    let new_hue :=
      if amount < 0 then c.h.sub (Angle.new (u16_of_int (amount * -1)))
      else c.h.add (Angle.new (u16_of_int amount))
    some (HSL.to_rgb ⟨new_hue, c.s, c.l⟩)
  else
    none

/-- lib.rs `RGB::spin`: through HSL; `HSL::spin` already returns RGB and the
final `.to_rgb()` is the RGB identity. -/
def RGB.spin (c : RGB) (amount : ℤ) : Option RGB :=
  (c.to_hsl.spin amount).map RGB.to_rgb

/-- lib.rs `RGBA::spin`: through HSL. -/
def RGBA.spin (c : RGBA) (amount : ℤ) : Option RGB :=
  (c.to_hsl.spin amount).map RGB.to_rgb

/-- lib.rs `HSLA::to_hsl`: drop alpha. -/
def HSLA.to_hsl (c : HSLA) : HSL := ⟨c.h, c.s, c.l⟩

/-- lib.rs `HSLA::to_hsla`: identity. -/
def HSLA.to_hsla (c : HSLA) : HSLA := c

/-- lib.rs `HSLA::spin`: through HSL. -/
def HSLA.spin (c : HSLA) (amount : ℤ) : Option RGB :=
  (c.to_hsl.spin amount).map RGB.to_rgb

/-- lib.rs `HSLA::saturate`: saturating add on saturation, other fields
unchanged. -/
def HSLA.saturate (c : HSLA) (amount : ℕ) : HSLA :=
  ⟨c.h, c.s.add (Frac.from_percentage amount), c.l, c.a⟩

/-- lib.rs `HSLA::desaturate`: saturating subtract on saturation. -/
def HSLA.desaturate (c : HSLA) (amount : ℕ) : HSLA :=
  ⟨c.h, c.s.sub (Frac.from_percentage amount), c.l, c.a⟩

/-- lib.rs `HSLA::lighten`: saturating add on luminosity. -/
def HSLA.lighten (c : HSLA) (amount : ℕ) : HSLA :=
  ⟨c.h, c.s, c.l.add (Frac.from_percentage amount), c.a⟩

/-- lib.rs `HSLA::darken`: saturating subtract on luminosity. -/
def HSLA.darken (c : HSLA) (amount : ℕ) : HSLA :=
  ⟨c.h, c.s, c.l.sub (Frac.from_percentage amount), c.a⟩

/-- lib.rs `HSLA::fadein`: saturating add on alpha (raw byte scale). -/
def HSLA.fadein (c : HSLA) (amount : ℕ) : HSLA :=
  ⟨c.h, c.s, c.l, c.a.add (Frac.from_u8 amount)⟩

/-- lib.rs `HSLA::fadeout`: saturating subtract on alpha (raw byte
scale). -/
def HSLA.fadeout (c : HSLA) (amount : ℕ) : HSLA :=
  ⟨c.h, c.s, c.l, c.a.sub (Frac.from_u8 amount)⟩

/-- lib.rs `HSLA::fade`: set alpha absolutely. -/
def HSLA.fade (c : HSLA) (amount : ℕ) : HSLA :=
  ⟨c.h, c.s, c.l, Frac.from_u8 amount⟩

/-- lib.rs `HSLA::greyscale`: drop to HSL, greyscale there, rebuild as
HSLA (which re-attaches alpha 255). -/
def HSLA.greyscale (c : HSLA) : HSLA :=
  c.to_hsl.greyscale.to_hsla

/-- lib.rs `RGBA::mix`: the scaled user weight `w`, in [-1, 1]. -/
def mixW (weight : ℕ) : Q :=
  ((Frac.from_percentage weight).as_f32.mul (Q.ofInt 2)).sub (Q.ofInt 1)

/-- lib.rs `RGBA::mix`: the alpha difference `a` of the two sides, in
[-1, 1]. -/
def mixA (a_lhs a_rhs : Frac) : Q :=
  a_lhs.as_f32.sub a_rhs.as_f32

/-- lib.rs `RGBA::mix`: the combined rgb weight before rescaling — the raw
weight `w` when `w * a = -1` (the case in which the denominator `1 + w * a`
of the general formula would be zero), otherwise `(w + a) / (1 + w * a)`. -/
def mixRgbWeightRaw (w a : Q) : Q :=
  if (w.mul a).Eq (Q.ofInt (-1)) then w
  else (w.add a).div ((Q.ofInt 1).add (w.mul a))

/-- lib.rs `RGBA::mix` (with an RGBA right-hand side; the generic callee
first converts `other` with `to_rgba`). -/
def RGBA.mix (self other : RGBA) (weight : ℕ) : RGBA :=
  let rhs := other.to_rgba
  let ratio_weight := Frac.from_percentage weight
  let w := mixW weight
  let a := mixA self.a rhs.a
  let rgb_weight := ((mixRgbWeightRaw w a).add (Q.ofInt 1)).div (Q.ofInt 2)
  let rgb_weight_lhs := Frac.from_f32 rgb_weight
  let rgb_weight_rhs := (Frac.from_f32 (Q.ofInt 1)).sub rgb_weight_lhs
  let alpha_weight_lhs := ratio_weight
  let alpha_weight_rhs := (Frac.from_f32 (Q.ofInt 1)).sub alpha_weight_lhs
  ⟨(self.r.mul rgb_weight_lhs).add (rhs.r.mul rgb_weight_rhs),
   (self.g.mul rgb_weight_lhs).add (rhs.g.mul rgb_weight_rhs),
   (self.b.mul rgb_weight_lhs).add (rhs.b.mul rgb_weight_rhs),
   (self.a.mul alpha_weight_lhs).add (rhs.a.mul alpha_weight_rhs)⟩

/-- lib.rs `impl fmt::Display for RGBA`, the `{:.02}` rendering of the alpha
fraction: two decimal digits of the non-negative value `q` (for the values
`a/255` that occur, rounding to two decimals has no ties, so round half away
from zero agrees with Rust's correctly-rounded formatting). -/
def fmtF32Two (q : Q) : String :=
  let n := (qRound (q.mul (Q.ofInt 100))).toNat
  toString (n / 100) ++ "." ++ (if n % 100 < 10 then "0" else "") ++ toString (n % 100)

/-- lib.rs `impl fmt::Display for RGBA`:
`rgba({r}, {g}, {b}, {alpha:.02})` with raw bytes for r, g, b. -/
def RGBA.to_string (c : RGBA) : String :=
  "rgba(" ++ toString c.r.as_u8 ++ ", " ++ toString c.g.as_u8 ++ ", " ++
    toString c.b.as_u8 ++ ", " ++ fmtF32Two c.a.as_f32 ++ ")"

/-- lib.rs `RGBA::to_css`: the Display rendering. -/
def RGBA.to_css (c : RGBA) : String := c.to_string

/-! ## Transfer lemmas: `Q` operations versus their rational semantics -/

theorem Q.den_cast_pos (q : Q) : (0 : ℚ) < (q.den : ℚ) := by
  exact_mod_cast q.pos

theorem Q.den_cast_ne (q : Q) : ((q.den : ℚ)) ≠ 0 :=
  ne_of_gt q.den_cast_pos

theorem Q.toRat_ofInt (n : ℤ) : (Q.ofInt n).toRat = (n : ℚ) := by
  simp [Q.ofInt, Q.toRat]

theorem Q.toRat_add (a b : Q) : (a.add b).toRat = a.toRat + b.toRat := by
  unfold Q.toRat Q.add
  have ha := a.den_cast_ne
  have hb := b.den_cast_ne
  field_simp
  try push_cast
  try ring

theorem Q.toRat_sub (a b : Q) : (a.sub b).toRat = a.toRat - b.toRat := by
  unfold Q.toRat Q.sub
  have ha := a.den_cast_ne
  have hb := b.den_cast_ne
  field_simp
  try push_cast
  try ring

theorem Q.toRat_mul (a b : Q) : (a.mul b).toRat = a.toRat * b.toRat := by
  unfold Q.toRat Q.mul
  have ha := a.den_cast_ne
  have hb := b.den_cast_ne
  field_simp
  try push_cast
  try ring

theorem Q.toRat_div (a b : Q) : (a.div b).toRat = a.toRat / b.toRat := by
  unfold Q.div
  by_cases h : 0 < b.num
  · rw [dif_pos h]
    have ha := a.den_cast_ne
    have hb := b.den_cast_ne
    have hbn : ((b.num : ℚ)) ≠ 0 := by
      exact_mod_cast ne_of_gt h
    have h1 : ((b.num.toNat : ℕ) : ℚ) = (b.num : ℚ) := by
      exact_mod_cast Int.toNat_of_nonneg (le_of_lt h)
    unfold Q.toRat
    push_cast [h1]
    field_simp
    try ring
  · by_cases h' : b.num < 0
    · rw [dif_neg h, dif_pos h']
      have ha := a.den_cast_ne
      have hb := b.den_cast_ne
      have hbn : ((b.num : ℚ)) ≠ 0 := by
        exact_mod_cast ne_of_lt h'
      have h1 : (((-b.num).toNat : ℕ) : ℚ) = -(b.num : ℚ) := by
        have := Int.toNat_of_nonneg (by omega : (0:ℤ) ≤ -b.num)
        exact_mod_cast this
      unfold Q.toRat
      push_cast [h1]
      field_simp
      try ring
    · rw [dif_neg h, dif_neg h']
      have hz : b.num = 0 := by omega
      have : b.toRat = 0 := by
        unfold Q.toRat
        rw [hz]
        simp
      rw [this, div_zero, Q.toRat_ofInt]
      simp

theorem Q.Eq_iff (a b : Q) : a.Eq b ↔ a.toRat = b.toRat := by
  unfold Q.Eq Q.toRat
  rw [div_eq_div_iff a.den_cast_ne b.den_cast_ne]
  constructor
  · intro h
    exact_mod_cast h
  · intro h
    exact_mod_cast h

theorem Q.Lt_iff (a b : Q) : a.Lt b ↔ a.toRat < b.toRat := by
  unfold Q.Lt Q.toRat
  rw [div_lt_div_iff₀ a.den_cast_pos b.den_cast_pos]
  constructor
  · intro h
    exact_mod_cast h
  · intro h
    exact_mod_cast h

theorem Q.Le_iff (a b : Q) : a.Le b ↔ a.toRat ≤ b.toRat := by
  unfold Q.Le Q.toRat
  rw [div_le_div_iff₀ a.den_cast_pos b.den_cast_pos]
  constructor
  · intro h
    exact_mod_cast h
  · intro h
    exact_mod_cast h

theorem qRound_natCast (q : Q) (n : ℕ) (h : q.toRat = (n : ℚ)) : qRound q = n := by
  have hnum : q.num = (n : ℤ) * q.den := by
    rw [Q.toRat, div_eq_iff q.den_cast_ne] at h
    exact_mod_cast h
  have h0 : 0 ≤ q.num := by
    rw [hnum]
    positivity
  have htn : q.num.toNat = n * q.den := by
    have : q.num = ((n * q.den : ℕ) : ℤ) := by
      rw [hnum]
      push_cast
      ring
    omega
  unfold qRound
  rw [if_pos h0, htn]
  have hd : 2 * (n * q.den) + q.den = (2 * n + 1) * q.den := by ring
  have he : 2 * q.den = 2 * q.den := rfl
  rw [hd]
  have := Nat.mul_div_mul_right (2 * n + 1) 2 q.pos
  rw [this]
  have : (2 * n + 1) / 2 = n := by omega
  rw [this]

theorem Frac.as_f32_toRat (x : Frac) : x.as_f32.toRat = (x.value : ℚ) / 255 := by
  unfold Frac.as_f32 Q.toRat
  push_cast
  ring

theorem Frac.from_f32_eq (q : Q) (n : ℕ) (hn : n ≤ 255)
    (h : (q.mul (Q.ofInt 255)).toRat = (n : ℚ)) : Frac.from_f32 q = ⟨n⟩ := by
  unfold Frac.from_f32
  rw [qRound_natCast _ n h]
  congr 1
  omega

theorem Frac.mul_fullWeight (x : Frac) (hx : x.value ≤ 255) : x.mul ⟨255⟩ = x := by
  obtain ⟨v⟩ := x
  unfold Frac.mul
  apply Frac.from_f32_eq _ v hx
  rw [Q.toRat_mul, Q.toRat_mul, Frac.as_f32_toRat, Frac.as_f32_toRat, Q.toRat_ofInt]
  push_cast
  field_simp

theorem Frac.mul_zeroWeight (x : Frac) : x.mul ⟨0⟩ = ⟨0⟩ := by
  unfold Frac.mul
  apply Frac.from_f32_eq _ 0 (by omega)
  rw [Q.toRat_mul, Q.toRat_mul, Frac.as_f32_toRat, Frac.as_f32_toRat, Q.toRat_ofInt]
  norm_num

theorem Frac.add_zeroR (x : Frac) (hx : x.value ≤ 255) : x.add ⟨0⟩ = x := by
  obtain ⟨v⟩ := x
  show Frac.mk (min 255 (v + 0)) = Frac.mk v
  congr 1
  simp only [Frac.value] at hx
  omega

theorem Frac.add_zeroL (x : Frac) (hx : x.value ≤ 255) : Frac.add ⟨0⟩ x = x := by
  obtain ⟨v⟩ := x
  show Frac.mk (min 255 (0 + v)) = Frac.mk v
  congr 1
  simp only [Frac.value] at hx
  omega

theorem mixW_100 : (mixW 100).toRat = 1 := by
  unfold mixW
  have h : Frac.from_percentage 100 = ⟨255⟩ := rfl
  rw [h, Q.toRat_sub, Q.toRat_mul, Frac.as_f32_toRat, Q.toRat_ofInt, Q.toRat_ofInt]
  norm_num

theorem mixW_0 : (mixW 0).toRat = -1 := by
  unfold mixW
  have h : Frac.from_percentage 0 = ⟨0⟩ := rfl
  rw [h, Q.toRat_sub, Q.toRat_mul, Frac.as_f32_toRat, Q.toRat_ofInt, Q.toRat_ofInt]
  norm_num

theorem mixRgbWeightRaw_full (a : Q) : (mixRgbWeightRaw (mixW 100) a).toRat = 1 := by
  unfold mixRgbWeightRaw
  by_cases hc : ((mixW 100).mul a).Eq (Q.ofInt (-1))
  · rw [if_pos hc]
    exact mixW_100
  · rw [if_neg hc]
    have hA : ((mixW 100).mul a).toRat = a.toRat := by
      rw [Q.toRat_mul, mixW_100, one_mul]
    have hne : (1 : ℚ) + a.toRat ≠ 0 := by
      intro h0
      apply hc
      rw [Q.Eq_iff, hA, Q.toRat_ofInt]
      push_cast
      linarith
    rw [Q.toRat_div, Q.toRat_add, Q.toRat_add, hA, mixW_100, Q.toRat_ofInt]
    push_cast
    exact div_self hne

theorem mixRgbWeightRaw_zero (a : Q) : (mixRgbWeightRaw (mixW 0) a).toRat = -1 := by
  unfold mixRgbWeightRaw
  by_cases hc : ((mixW 0).mul a).Eq (Q.ofInt (-1))
  · rw [if_pos hc]
    exact mixW_0
  · rw [if_neg hc]
    have hA : ((mixW 0).mul a).toRat = -a.toRat := by
      rw [Q.toRat_mul, mixW_0]
      ring
    have hne : (1 : ℚ) - a.toRat ≠ 0 := by
      intro h0
      apply hc
      rw [Q.Eq_iff, hA, Q.toRat_ofInt]
      push_cast
      linarith
    have hne2 : (1 : ℚ) + -a.toRat ≠ 0 := by
      intro h0
      exact hne (by linarith)
    rw [Q.toRat_div, Q.toRat_add, Q.toRat_add, hA, mixW_0, Q.toRat_ofInt]
    push_cast
    rw [div_eq_iff hne2]
    ring

theorem mix_weight_100 (x y : RGBA) (hr : x.r.value ≤ 255) (hg : x.g.value ≤ 255)
    (hb : x.b.value ≤ 255) (ha : x.a.value ≤ 255) : x.mix y 100 = x := by
  obtain ⟨xr, xg, xb, xa⟩ := x
  obtain ⟨yr, yg, yb, ya⟩ := y
  have hlhs : Frac.from_f32 (((mixRgbWeightRaw (mixW 100) (mixA xa ya)).add
      (Q.ofInt 1)).div (Q.ofInt 2)) = ⟨255⟩ := by
    apply Frac.from_f32_eq _ 255 (le_refl 255)
    rw [Q.toRat_mul, Q.toRat_div, Q.toRat_add, mixRgbWeightRaw_full,
      Q.toRat_ofInt, Q.toRat_ofInt, Q.toRat_ofInt]
    norm_num
  have hone : Frac.from_f32 (Q.ofInt 1) = ⟨255⟩ := by decide
  have hw : Frac.from_percentage 100 = ⟨255⟩ := rfl
  have hsub : (⟨255⟩ : Frac).sub ⟨255⟩ = ⟨0⟩ := rfl
  simp only [RGBA.mix, RGBA.to_rgba, hlhs, hone, hw, hsub, Frac.mul_zeroWeight]
  rw [Frac.mul_fullWeight xr hr, Frac.mul_fullWeight xg hg,
    Frac.mul_fullWeight xb hb, Frac.mul_fullWeight xa ha,
    Frac.add_zeroR xr hr, Frac.add_zeroR xg hg,
    Frac.add_zeroR xb hb, Frac.add_zeroR xa ha]

theorem mix_weight_0 (x y : RGBA) (hr : y.r.value ≤ 255) (hg : y.g.value ≤ 255)
    (hb : y.b.value ≤ 255) (ha : y.a.value ≤ 255) : x.mix y 0 = y.to_rgba := by
  obtain ⟨xr, xg, xb, xa⟩ := x
  obtain ⟨yr, yg, yb, ya⟩ := y
  have hlhs : Frac.from_f32 (((mixRgbWeightRaw (mixW 0) (mixA xa ya)).add
      (Q.ofInt 1)).div (Q.ofInt 2)) = ⟨0⟩ := by
    apply Frac.from_f32_eq _ 0 (by omega)
    rw [Q.toRat_mul, Q.toRat_div, Q.toRat_add, mixRgbWeightRaw_zero,
      Q.toRat_ofInt, Q.toRat_ofInt, Q.toRat_ofInt]
    norm_num
  have hone : Frac.from_f32 (Q.ofInt 1) = ⟨255⟩ := by decide
  have hw : Frac.from_percentage 0 = ⟨0⟩ := rfl
  have hsub : (⟨255⟩ : Frac).sub ⟨0⟩ = ⟨255⟩ := rfl
  simp only [RGBA.mix, RGBA.to_rgba, hlhs, hone, hw, hsub, Frac.mul_zeroWeight]
  rw [Frac.mul_fullWeight yr hr, Frac.mul_fullWeight yg hg,
    Frac.mul_fullWeight yb hb, Frac.mul_fullWeight ya ha,
    Frac.add_zeroL yr hr, Frac.add_zeroL yg hg,
    Frac.add_zeroL yb hb, Frac.add_zeroL ya ha]

/-! ## Claim theorems -/

/-- C1 counterexample: contrary to the claim, `spin(-400)` is not rejected —
the assertion `amount < 360` only checks the upper bound, so the call
succeeds (rotating by 400 mod 360 = 40 degrees counter-clockwise). -/
theorem spin_neg400_not_rejected :
    ((HSL.new 10 90 50).spin (-400)).isSome = true := by
  decide

/-- C1 (amended): for every color in any of the four models, `spin(delta)`
hits the fatal assertion exactly when `delta ≥ 360`; every delta below 360
(down to the i16 overflow edge at -32768, excluded) is accepted, negative
deltas of any magnitude included. -/
theorem spin_assert_boundary (c1 : RGB) (c2 : RGBA) (c3 : HSL) (c4 : HSLA)
    (amount : ℤ) :
    (360 ≤ amount →
      c1.spin amount = none ∧ c2.spin amount = none ∧
      c3.spin amount = none ∧ c4.spin amount = none) ∧
    (-32768 < amount → amount < 360 →
      (c1.spin amount).isSome = true ∧ (c2.spin amount).isSome = true ∧
      (c3.spin amount).isSome = true ∧ (c4.spin amount).isSome = true) := by
  constructor
  · intro h
    have hlt : ¬ amount < 360 := by omega
    simp [RGB.spin, RGBA.spin, HSLA.spin, HSL.spin, hlt]
  · intro _ h2
    simp [RGB.spin, RGBA.spin, HSLA.spin, HSL.spin, h2]

/-- C1 witness: the boundary theorem applied at delta 400 (rejected) and
delta -400 (accepted) on concrete colors. -/
theorem spin_assert_boundary_witness :
    ((RGB.new 1 2 3).spin 400 = none ∧ (RGBA.new 1 2 3 4).spin 400 = none ∧
      (HSL.new 10 90 50).spin 400 = none ∧ (HSLA.new 10 90 50 128).spin 400 = none) ∧
    (((RGB.new 1 2 3).spin (-400)).isSome = true ∧
      ((RGBA.new 1 2 3 4).spin (-400)).isSome = true ∧
      ((HSL.new 10 90 50).spin (-400)).isSome = true ∧
      ((HSLA.new 10 90 50 128).spin (-400)).isSome = true) :=
  ⟨(spin_assert_boundary (RGB.new 1 2 3) (RGBA.new 1 2 3 4) (HSL.new 10 90 50)
      (HSLA.new 10 90 50 128) 400).1 (by decide),
   (spin_assert_boundary (RGB.new 1 2 3) (RGBA.new 1 2 3 4) (HSL.new 10 90 50)
      (HSLA.new 10 90 50 128) (-400)).2 (by decide) (by decide)⟩

/-- C2 counterexample: the round trip RGB→HSL→RGB moves the green channel of
RGB(0, 11, 255) from 11 to 14 — a deviation of 3, refuting the claimed
±1 bound. -/
theorem roundtrip_pm1_fails :
    ¬ (((RGB.new 0 11 255).to_hsl.to_rgb).g.as_u8 ≤ (RGB.new 0 11 255).g.as_u8 + 1) := by
  decide

/-- C2 (amended): the RGB→HSL→RGB round trip is exact on achromatic triples
(r = g = b); the uniform ±1 bound does not hold for general triples — at
RGB(0, 11, 255) the round trip returns RGB(1, 14, 255), 3 units off in
green. -/
theorem roundtrip_amended :
    (∀ k : ℕ, (RGB.new k k k).to_hsl.to_rgb = RGB.new k k k) ∧
    (RGB.new 0 11 255).to_hsl.to_rgb = RGB.new 1 14 255 := by
  constructor
  · intro k
    have h1 : (RGB.new k k k).to_hsl = ⟨Angle.new 0, Frac.from_percentage 0, ⟨k⟩⟩ := by
      simp [RGB.to_hsl, RGB.new, Frac.from_u8]
    rw [h1]
    have hc : ((Frac.from_percentage 0).as_f32).Eq (Q.ofInt 0) := by decide
    simp only [HSL.to_rgb]
    rw [if_pos hc]
    rfl
  · decide

/-- C3: mixing with full weight 100 returns the left color exactly, and with
weight 0 returns the right color (as RGBA) exactly, in all four channels,
whenever the channels are in byte range. -/
theorem mix_full_weight_edges (x y : RGBA)
    (hxr : x.r.value ≤ 255) (hxg : x.g.value ≤ 255)
    (hxb : x.b.value ≤ 255) (hxa : x.a.value ≤ 255)
    (hyr : y.r.value ≤ 255) (hyg : y.g.value ≤ 255)
    (hyb : y.b.value ≤ 255) (hya : y.a.value ≤ 255) :
    x.mix y 100 = x ∧ x.mix y 0 = y.to_rgba :=
  ⟨mix_weight_100 x y hxr hxg hxb hxa, mix_weight_0 x y hyr hyg hyb hya⟩

/-- C3 witness: the full-weight edge cases at a concrete pair of colors. -/
theorem mix_full_weight_edges_witness :
    (RGBA.new 10 20 30 40).mix (RGBA.new 50 60 70 80) 100 = RGBA.new 10 20 30 40 ∧
    (RGBA.new 10 20 30 40).mix (RGBA.new 50 60 70 80) 0 = (RGBA.new 50 60 70 80).to_rgba :=
  mix_full_weight_edges (RGBA.new 10 20 30 40) (RGBA.new 50 60 70 80)
    (by decide) (by decide) (by decide) (by decide)
    (by decide) (by decide) (by decide) (by decide)

/-- C4: the opaque→alpha conversions (`to_rgba`, `to_hsla` on RGB and HSL)
always attach alpha 255, with `RGB::to_rgba` preserving the rgb channels,
and the alpha→opaque conversions (`RGBA::to_rgb`, `HSLA::to_hsl`) drop the
alpha channel leaving every other channel exactly unchanged. -/
theorem alpha_conversion_invariant (c : RGB) (d : HSL) (x : RGBA) (y : HSLA) :
    (c.to_rgba).a = Frac.from_u8 255 ∧
    (c.to_rgba).r = c.r ∧ (c.to_rgba).g = c.g ∧ (c.to_rgba).b = c.b ∧
    (c.to_hsla).a = Frac.from_u8 255 ∧
    (d.to_hsla).a = Frac.from_u8 255 ∧
    (d.to_rgba).a = Frac.from_u8 255 ∧
    x.to_rgb = RGB.mk x.r x.g x.b ∧
    y.to_hsl = HSL.mk y.h y.s y.l :=
  ⟨rfl, rfl, rfl, rfl, rfl, rfl, rfl, rfl, rfl⟩

/-- C5 counterexample: `HSLA::greyscale` does not preserve the alpha
channel (it resets it to 255) and therefore does not coincide with
`desaturate(100)` on a non-opaque color. -/
theorem hsla_greyscale_alpha_lost :
    ((HSLA.new 90 90 50 128).greyscale).a ≠ (HSLA.new 90 90 50 128).a ∧
    (HSLA.new 90 90 50 128).greyscale ≠ (HSLA.new 90 90 50 128).desaturate 100 := by
  decide

/-- C5 (amended): `HSL::greyscale` zeroes saturation preserving hue and
lightness and (for byte-range saturation) equals `desaturate(100)`;
`HSLA::greyscale` zeroes saturation but round-trips through HSL, so it
re-normalizes the hue, maps lightness through its percentage form, and
replaces alpha with 255 instead of preserving it. -/
theorem greyscale_amended :
    (∀ c : HSL, c.greyscale = ⟨c.h, Frac.from_percentage 0, c.l⟩ ∧
      (c.s.value ≤ 255 → c.greyscale = c.desaturate 100)) ∧
    (∀ c : HSLA, c.greyscale =
      ⟨Angle.new c.h.degrees, Frac.from_percentage 0,
        Frac.from_percentage c.l.as_percentage, Frac.from_u8 255⟩) := by
  constructor
  · intro c
    constructor
    · rfl
    · intro hs
      obtain ⟨h0, s0, l0⟩ := c
      obtain ⟨v⟩ := s0
      have hv : v ≤ 255 := hs
      have h2 : Frac.from_percentage 0 = (Frac.mk v).sub (Frac.from_percentage 100) := by
        simp only [Frac.sub, Frac.from_percentage, Frac.mk.injEq]
        omega
      exact congrArg (fun s => HSL.mk h0 s l0) h2
  · intro c
    have h2 : Frac.from_percentage ((Frac.from_percentage 0).as_percentage) =
        Frac.from_percentage 0 := by decide
    exact congrArg
      (fun s => HSLA.mk (Angle.new c.h.degrees) s
        (Frac.from_percentage c.l.as_percentage) (Frac.from_u8 255)) h2

/-- C5 witness: the greyscale/desaturate(100) agreement on a concrete
opaque HSL color, from the amended theorem. -/
theorem greyscale_amended_witness :
    (HSL.new 90 90 50).greyscale = (HSL.new 90 90 50).desaturate 100 :=
  (greyscale_amended.1 (HSL.new 90 90 50)).2 (by decide)

/-- C6 counterexample: for k = 1 the achromatic result keeps lightness as
the raw byte Ratio(1), while `HSL::new(0, 0, percentage(1))` stores
Ratio(0) — the claimed exact equality fails. -/
theorem achromatic_percentage_fails :
    (RGB.new 1 1 1).to_hsl ≠ HSL.new 0 0 ((Frac.from_u8 1).as_percentage) := by
  decide

/-- C6 (amended): for every byte k, `RGB::new(k,k,k).to_hsl()` is exactly
`HSL { h: 0°, s: 0, l: Ratio::from_u8 k }` — the achromatic branch keeps the
raw byte as lightness; this equals `HSL::new(0, 0, percentage(k))` exactly
when the percentage representation of k round-trips back to k. -/
theorem achromatic_amended (k : ℕ) :
    (RGB.new k k k).to_hsl = ⟨Angle.new 0, Frac.from_percentage 0, Frac.from_u8 k⟩ ∧
    (Frac.from_percentage ((Frac.from_u8 k).as_percentage) = Frac.from_u8 k →
      (RGB.new k k k).to_hsl = HSL.new 0 0 ((Frac.from_u8 k).as_percentage)) := by
  have h1 : (RGB.new k k k).to_hsl = ⟨Angle.new 0, Frac.from_percentage 0, Frac.from_u8 k⟩ := by
    simp [RGB.to_hsl, RGB.new, Frac.from_u8]
  refine ⟨h1, fun hp => ?_⟩
  rw [h1]
  unfold HSL.new
  rw [hp]

/-- C6 witness: at k = 128 the percentage round-trips, so the claimed form
holds there. -/
theorem achromatic_amended_witness :
    (RGB.new 128 128 128).to_hsl = ⟨Angle.new 0, Frac.from_percentage 0, Frac.from_u8 128⟩ ∧
    (RGB.new 128 128 128).to_hsl = HSL.new 0 0 ((Frac.from_u8 128).as_percentage) :=
  ⟨(achromatic_amended 128).1, (achromatic_amended 128).2 (by decide)⟩

/-- C7: in `RGBA::mix` the combined rgb weight takes the fallback raw
weight `w` exactly when `w * a = -1`; in the complementary case the
denominator `1 + w * a` of the division is provably nonzero and the
division branch is taken — so the division never sees a zero denominator
and `mix` is total. -/
theorem mix_denominator_guard (x y : RGBA) (weight : ℕ) :
    (((mixW weight).mul (mixA x.a (y.to_rgba).a)).Eq (Q.ofInt (-1)) →
      mixRgbWeightRaw (mixW weight) (mixA x.a (y.to_rgba).a) = mixW weight) ∧
    (¬ ((mixW weight).mul (mixA x.a (y.to_rgba).a)).Eq (Q.ofInt (-1)) →
      ¬ (((Q.ofInt 1).add ((mixW weight).mul (mixA x.a (y.to_rgba).a))).Eq (Q.ofInt 0)) ∧
      mixRgbWeightRaw (mixW weight) (mixA x.a (y.to_rgba).a) =
        ((mixW weight).add (mixA x.a (y.to_rgba).a)).div
          ((Q.ofInt 1).add ((mixW weight).mul (mixA x.a (y.to_rgba).a)))) := by
  constructor
  · intro h
    unfold mixRgbWeightRaw
    rw [if_pos h]
  · intro h
    constructor
    · intro h0
      apply h
      rw [Q.Eq_iff] at h0 ⊢
      rw [Q.toRat_add, Q.toRat_ofInt, Q.toRat_ofInt] at h0
      rw [Q.toRat_ofInt]
      push_cast at h0 ⊢
      linarith
    · unfold mixRgbWeightRaw
      rw [if_neg h]

/-- C7 witness: the guard theorem at a weight-0 mix of an opaque against a
transparent color (where `w * a = -1` and the fallback fires) and at an
ordinary mix (where the division branch has a nonzero denominator). -/
theorem mix_denominator_guard_witness :
    mixRgbWeightRaw (mixW 0) (mixA (RGBA.new 0 0 0 255).a ((RGBA.new 9 9 9 0).to_rgba).a) = mixW 0 ∧
    (¬ (((Q.ofInt 1).add ((mixW 50).mul
        (mixA (RGBA.new 0 0 0 255).a ((RGBA.new 9 9 9 0).to_rgba).a))).Eq (Q.ofInt 0)) ∧
      mixRgbWeightRaw (mixW 50) (mixA (RGBA.new 0 0 0 255).a ((RGBA.new 9 9 9 0).to_rgba).a) =
        ((mixW 50).add (mixA (RGBA.new 0 0 0 255).a ((RGBA.new 9 9 9 0).to_rgba).a)).div
          ((Q.ofInt 1).add ((mixW 50).mul
            (mixA (RGBA.new 0 0 0 255).a ((RGBA.new 9 9 9 0).to_rgba).a)))) :=
  ⟨(mix_denominator_guard (RGBA.new 0 0 0 255) (RGBA.new 9 9 9 0) 0).1 (by decide),
   (mix_denominator_guard (RGBA.new 0 0 0 255) (RGBA.new 9 9 9 0) 50).2 (by decide)⟩

/-- C8: `fadein` and `fadeout` return self unchanged on the opaque models
RGB and HSL, for every color and every amount. -/
theorem fade_noop_on_opaque (c : RGB) (d : HSL) (n : ℕ) :
    c.fadein n = c ∧ c.fadeout n = c ∧ d.fadein n = d ∧ d.fadeout n = d :=
  ⟨rfl, rfl, rfl, rfl⟩

/-- C9: the CSS rendering of RGBA(5, 10, 255, 128) is byte-for-byte
`rgba(5, 10, 255, 0.50)` — raw bytes for r, g, b and the alpha as a
two-decimal fraction of [0, 1]. -/
theorem rgba_css_rendering :
    (RGBA.new 5 10 255 128).to_css = "rgba(5, 10, 255, 0.50)" := by
  decide

/-- C10: every HSLA transformation touches only its target channel:
saturate/desaturate preserve h, l, a; lighten/darken preserve h, s, a;
fadein/fadeout/fade preserve h, s, l. -/
theorem hsla_frame_conditions (c : HSLA) (n : ℕ) :
    (c.saturate n).h = c.h ∧ (c.saturate n).l = c.l ∧ (c.saturate n).a = c.a ∧
    (c.desaturate n).h = c.h ∧ (c.desaturate n).l = c.l ∧ (c.desaturate n).a = c.a ∧
    (c.lighten n).h = c.h ∧ (c.lighten n).s = c.s ∧ (c.lighten n).a = c.a ∧
    (c.darken n).h = c.h ∧ (c.darken n).s = c.s ∧ (c.darken n).a = c.a ∧
    (c.fadein n).h = c.h ∧ (c.fadein n).s = c.s ∧ (c.fadein n).l = c.l ∧
    (c.fadeout n).h = c.h ∧ (c.fadeout n).s = c.s ∧ (c.fadeout n).l = c.l ∧
    (c.fade n).h = c.h ∧ (c.fade n).s = c.s ∧ (c.fade n).l = c.l :=
  ⟨rfl, rfl, rfl, rfl, rfl, rfl, rfl, rfl, rfl, rfl, rfl, rfl, rfl, rfl, rfl,
   rfl, rfl, rfl, rfl, rfl, rfl⟩
